import Mathlib

/-!
Verification development for the ulti-weavi-guy repository.

The repository ships the Next.js frontend (ScrapeForm, ChatInterface,
JobStatus, CollectionsList components) together with deployment and
development documentation.  The backend job-orchestration engine (FastAPI
JobOrchestrator, job store, pipeline) is described by the design document but
its code is not part of the repository snapshot; where a property is decided
by that engine, the definitions below are modelled from the design document
and are marked as such in their doc comments.  Everything else is translated
directly from the TypeScript sources.
-/

/- ===================== Frontend data model ===================== -/

/-- The `result` payload of a job, from the `Job` interface in
`frontend/src/components/JobStatus.tsx` (lines 13-17):
`collection_name?: string; documents_processed?: number; success?: boolean`. -/
structure JobResult where
  collection_name : Option String
  documents_processed : Option ℚ
  success : Option Bool
deriving DecidableEq

/-- The `Job` interface in `frontend/src/components/JobStatus.tsx`
(lines 5-18): the record a polling client receives from `GET /jobs/:id`. -/
structure Job where
  id : String
  type : String
  status : String
  prompt : Option String
  progress : ℚ
  created_at : String
  error : Option String
  result : Option JobResult
deriving DecidableEq

/-- The scalar kind of a TypeScript field declaration. -/
inductive TsFieldType where
  | string
  | number
  | boolean
  | object
deriving DecidableEq

/-- The field list of the `Job` interface as declared in
`JobStatus.tsx` lines 5-18: name, whether the field is optional (`?`), and
its declared type.  The `result` field is an object whose own fields are
`jobResultFields`. -/
def jobFields : List (String × Bool × TsFieldType) :=
  [("id", false, TsFieldType.string),
   ("type", false, TsFieldType.string),
   ("status", false, TsFieldType.string),
   ("prompt", true, TsFieldType.string),
   ("progress", false, TsFieldType.number),
   ("created_at", false, TsFieldType.string),
   ("error", true, TsFieldType.string),
   ("result", true, TsFieldType.object)]

/-- The field list of the object type of `Job.result` (`JobStatus.tsx`
lines 13-17). -/
def jobResultFields : List (String × Bool × TsFieldType) :=
  [("collection_name", true, TsFieldType.string),
   ("documents_processed", true, TsFieldType.number),
   ("success", true, TsFieldType.boolean)]

/-- Names of the fields of the `Job` interface. -/
def jobFieldNames : List String := jobFields.map (fun f => f.1)

/-- Names of the fields of the `Job.result` object. -/
def jobResultFieldNames : List String := jobResultFields.map (fun f => f.1)

/-- `getStatusIcon` from `JobStatus.tsx` lines 91-104: the switch over the
status string, with default case `❓`. -/
def getStatusIcon (status : String) : String :=
  if status = "completed" then "✅"
  else if status = "failed" then "❌"
  else if status = "running" then "🔄"
  else if status = "pending" then "⏳"
  else "❓"

/-- The error block of `JobStatus.tsx` lines 158-163: rendered only when
`job.status === 'failed' && job.error` — `job.error` is a JavaScript
truthiness test, so an absent or empty error string renders nothing — and it
interpolates the error string directly into `❌ Error: {job.error}`. -/
def renderJobError (j : Job) : Option String :=
  if j.status = "failed" then
    match j.error with
    | some e => if e = "" then none else some ("❌ Error: " ++ e)
    | none => none
  else none

/-- What the `JobStatus` component renders for a job list: either the
empty-state message, or a list of job cards plus an optional
`View all {jobs.length} jobs` control. -/
inductive JobStatusView where
  | empty
  | cards (shown : List Job) (viewAllTotal : Option Nat)
deriving DecidableEq

/-- The render logic of `JobStatus.tsx` lines 106-176: empty state when
`jobs.length === 0`; otherwise `jobs.slice(0, 5)` cards, and the
`View all {jobs.length} jobs` button exactly when `jobs.length > 5`. -/
def renderJobStatus (jobs : List Job) : JobStatusView :=
  if jobs.length = 0 then JobStatusView.empty
  else JobStatusView.cards (jobs.take 5)
    (if 5 < jobs.length then some jobs.length else none)

/-- The job cards shown by a `JobStatusView`. -/
def viewCardsOf : JobStatusView → List Job
  | JobStatusView.empty => []
  | JobStatusView.cards shown _ => shown

/-- The total displayed by the `View all` control, when present. -/
def viewAllOf : JobStatusView → Option Nat
  | JobStatusView.empty => none
  | JobStatusView.cards _ t => t

/- ===================== ScrapeForm ===================== -/

/-- JavaScript `String.prototype.trim` over the character list: leading and
trailing whitespace removed.  (Lean's builtin `String.trim` is not
kernel-reducible, so the embedding carries its own executable copy.) -/
def jsTrim (s : String) : String :=
  String.mk (((s.data.dropWhile Char.isWhitespace).reverse.dropWhile
    Char.isWhitespace).reverse)

/-- The request body posted to `POST /scrape` by `ScrapeForm.handleSubmit`:
`{ prompt: prompt.trim(), source_type: sourceType }`. -/
structure ScrapeRequest where
  prompt : String
  source_type : String
deriving DecidableEq

/-- The values of the `sourceType` select in `ScrapeForm` (part_001
lines 72-83): `auto`, `firecrawl`, `apify`, `local`. -/
def sourceTypeOptions : List String := ["auto", "firecrawl", "apify", "local"]

/-- `ScrapeForm.handleSubmit` (part_001 lines 15-47): guard
`if (!prompt.trim()) return;` — on a blank prompt nothing is sent and no
error is surfaced; otherwise the trimmed prompt and the selected source type
are posted. -/
def scrapeFormSubmit (prompt sourceType : String) : Option ScrapeRequest :=
  if jsTrim prompt = "" then none
  else some { prompt := jsTrim prompt, source_type := sourceType }

/- ===================== ChatInterface ===================== -/

/-- The `type` prop of `ChatInterface`: the TypeScript union
`'data' | 'config'`. -/
inductive ChatType where
  | data
  | config
deriving DecidableEq

/-- The wire form of a `ChatType`, as sent in the `chat_type` field. -/
def chatTypeParam : ChatType → String
  | ChatType.data => "data"
  | ChatType.config => "config"

/-- The request body posted to `POST /chat` by `ChatInterface.handleSubmit`
(`JobStatus.tsx` blob lines 236-240). -/
structure ChatRequest where
  message : String
  context_collection : Option String
  chat_type : String
deriving DecidableEq

/-- `ChatInterface.handleSubmit` body construction:
`context_collection: type === 'data' ? selectedCollection : null`. -/
def buildChatRequest (ty : ChatType) (selectedCollection content : String) :
    ChatRequest :=
  { message := content,
    context_collection :=
      match ty with
      | ChatType.data => some selectedCollection
      | ChatType.config => none,
    chat_type := chatTypeParam ty }

/- ========== Spec-modelled Job Orchestration Engine ========== -/

/-- Modelled from the spec: the `status` enumeration of a Job in the backend
Job Orchestration Engine (design document section 3); the engine's code is
not part of the repository snapshot. -/
inductive JStatus where
  | pending
  | running
  | completed
  | failed
deriving DecidableEq

/-- Modelled from the spec: the structured error of a failed Job
(design document section 3, `error`: structured kind and message). -/
structure JobError where
  kind : String
  message : String
deriving DecidableEq

/-- Modelled from the spec: the persisted state of one submitted task
(design document section 3, `JobRecord`). -/
structure JobRecord where
  id : String
  kind : String
  status : JStatus
  progress : ℚ
  input : String
  result : Option String
  error : Option JobError
  createdAt : Nat
  updatedAt : Nat
deriving DecidableEq

/-- Modelled from the spec: the Job created by `Orchestrator.Submit`
(status pending, progress 0, no result, no error). -/
def initJob (id kind input : String) (t : Nat) : JobRecord :=
  { id := id, kind := kind, status := JStatus.pending, progress := 0,
    input := input, result := none, error := none,
    createdAt := t, updatedAt := t }

/-- Modelled from the spec: the mutations the single worker executing a
job's pipeline may apply to its JobRecord (design document sections 3-4.3):
pending to running on pickup; progress raised monotonically up to 1 while
running; running to completed with progress exactly 1 and a result; running
to failed with progress frozen and a structured error.  Terminal states have
no outgoing transition. -/
inductive JobStep : JobRecord → JobRecord → Prop where
  | start (j : JobRecord) (t : Nat) (h : j.status = JStatus.pending) :
      JobStep j { j with status := JStatus.running, updatedAt := t }
  | advance (j : JobRecord) (p : ℚ) (t : Nat) (h : j.status = JStatus.running)
      (hle : j.progress ≤ p) (hub : p ≤ 1) :
      JobStep j { j with progress := p, updatedAt := t }
  | complete (j : JobRecord) (r : String) (t : Nat)
      (h : j.status = JStatus.running) :
      JobStep j { j with status := JStatus.completed, progress := 1,
                         result := some r, updatedAt := t }
  | fail (j : JobRecord) (e : JobError) (t : Nat)
      (h : j.status = JStatus.running) :
      JobStep j { j with status := JStatus.failed, error := some e,
                         updatedAt := t }

/-- The lifecycle invariant of a JobRecord: progress within bounds, result
present exactly on completed, error present exactly on failed, and progress
pinned to 1 on completed. -/
def JobInv (j : JobRecord) : Prop :=
  0 ≤ j.progress ∧ j.progress ≤ 1 ∧
  (j.result.isSome = true ↔ j.status = JStatus.completed) ∧
  (j.error.isSome = true ↔ j.status = JStatus.failed) ∧
  (j.status = JStatus.completed → j.progress = 1)

theorem jobInv_init (id kind input : String) (t : Nat) :
    JobInv (initJob id kind input t) := by
  refine ⟨?_, ?_, ?_, ?_, ?_⟩ <;> norm_num [initJob] <;> decide

theorem jobInv_step {j j' : JobRecord} (hs : JobStep j j') (h : JobInv j) :
    JobInv j' := by
  obtain ⟨h0, h1, hres, herr, hcp⟩ := h
  cases hs with
  | start t hp =>
      refine ⟨h0, h1, ?_, ?_, ?_⟩ <;> simp_all
  | advance p t hr hle hub =>
      refine ⟨le_trans h0 hle, hub, ?_, ?_, ?_⟩ <;> simp_all
  | complete r t hr =>
      refine ⟨by norm_num, le_refl 1, ?_, ?_, ?_⟩ <;> simp_all
  | fail e t hr =>
      refine ⟨h0, h1, ?_, ?_, ?_⟩ <;> simp_all

theorem jobStep_mono {j j' : JobRecord} (hs : JobStep j j')
    (h1 : j.progress ≤ 1) : j.progress ≤ j'.progress := by
  cases hs <;> simp_all

theorem terminal_no_step {j : JobRecord}
    (ht : j.status = JStatus.completed ∨ j.status = JStatus.failed) :
    ∀ j', ¬ JobStep j j' := by
  intro j' hs
  cases hs <;> rcases ht with h | h <;> simp_all

theorem jobInv_reach {j0 j : JobRecord}
    (h : Relation.ReflTransGen JobStep j0 j) (h0 : JobInv j0) : JobInv j := by
  induction h with
  | refl => exact h0
  | tail hsteps hstep ih => exact jobInv_step hstep ih

/-- Modelled from the spec: the only error `Submit` raises synchronously
(design document section 7: `ValidationError`, bad input at submission,
rejected synchronously, job never created). -/
inductive SubmitError where
  | validationError
deriving DecidableEq

/-- Modelled from the spec: the orchestrator-owned state, a job store
holding the records most-recent-first plus the id counter used to assign
fresh opaque identifiers. -/
structure OrchestratorState where
  store : List JobRecord
  nextId : Nat
deriving DecidableEq

/-- Lookup of a record by id in a store list. -/
def lookupJob : List JobRecord → String → Option JobRecord
  | [], _ => none
  | j :: rest, id => if j.id = id then some j else lookupJob rest id

/-- Modelled from the spec: `Orchestrator.Submit` (design document
section 4.3): validates that the input is non-empty — on empty input it
returns `ValidationError` synchronously and the state is unchanged —
otherwise it creates a pending Job under a fresh id at the head of the
store. -/
def submit (s : OrchestratorState) (kind input : String) (t : Nat) :
    Except SubmitError String × OrchestratorState :=
  if input = "" then (Except.error SubmitError.validationError, s)
  else
    (Except.ok (toString s.nextId),
     { store := initJob (toString s.nextId) kind input t :: s.store,
       nextId := s.nextId + 1 })

/-- Modelled from the spec: `Orchestrator.Query` / `JobStore.Get` (design
document sections 4.1, 4.3): a snapshot of the record, or not-found. -/
def getJob (s : OrchestratorState) (id : String) : Option JobRecord :=
  lookupJob s.store id

/-- Modelled from the spec: `Orchestrator.List` (design document
section 4.3): up to `limit` records, most recent first. -/
def listJobs (s : OrchestratorState) (limit : Nat) : List JobRecord :=
  s.store.take limit

/-- Modelled from the spec: `JobStore.Update` (design document
section 4.1): apply a mutator to the record with the given id. -/
def updateJobStore (store : List JobRecord) (id : String)
    (f : JobRecord → JobRecord) : List JobRecord :=
  store.map (fun j => if j.id = id then f j else j)

/-- Modelled from the spec: the histories of the orchestrator state, paired
with the list of every job id `Submit` has returned.  Worker updates go
through `JobStore.Update` with an id-preserving mutator (the worker mutates
the record's lifecycle fields, never its identifier). -/
inductive OrchTrace : OrchestratorState → List String → Prop where
  | init : OrchTrace { store := [], nextId := 0 } []
  | submit_ok {s : OrchestratorState} {ids : List String}
      {kind input : String} {t : Nat} {id : String} {s' : OrchestratorState} :
      OrchTrace s ids → submit s kind input t = (Except.ok id, s') →
      OrchTrace s' (id :: ids)
  | submit_err {s : OrchestratorState} {ids : List String}
      {kind input : String} {t : Nat} {e : SubmitError}
      {s' : OrchestratorState} :
      OrchTrace s ids → submit s kind input t = (Except.error e, s') →
      OrchTrace s' ids
  | worker_update {s : OrchestratorState} {ids : List String} {id : String}
      {f : JobRecord → JobRecord} :
      OrchTrace s ids → (∀ j, (f j).id = j.id) →
      OrchTrace { store := updateJobStore s.store id f, nextId := s.nextId }
        ids

theorem lookupJob_eq_none {store : List JobRecord} {id : String}
    (h : ∀ j ∈ store, j.id ≠ id) : lookupJob store id = none := by
  induction store with
  | nil => rfl
  | cons j rest ih =>
      unfold lookupJob
      rw [if_neg (h j (List.mem_cons_self j rest))]
      exact ih (fun x hx => h x (List.mem_cons_of_mem j hx))

theorem lookupJob_none_forall {store : List JobRecord} {id : String}
    (h : lookupJob store id = none) : ∀ j ∈ store, j.id ≠ id := by
  induction store with
  | nil => intro j hj; exact absurd hj (List.not_mem_nil j)
  | cons j rest ih =>
      intro x hx
      unfold lookupJob at h
      by_cases hj : j.id = id
      · rw [if_pos hj] at h; exact absurd h (by simp)
      · rw [if_neg hj] at h
        rcases List.mem_cons.mp hx with rfl | hx'
        · exact hj
        · exact ih h x hx'

/- ===================== Claim theorems (part 1) ===================== -/

/-- C1: For every job, progress stays in the interval from 0 to 1; every
step a running job takes is monotonically non-decreasing in progress;
progress equals exactly 1 whenever status is completed; and a failed (or
completed) job admits no further step, so its progress stays frozen at its
last value. -/
theorem job_progress_invariant (id kind input : String) (t : Nat)
    (j : JobRecord)
    (h : Relation.ReflTransGen JobStep (initJob id kind input t) j) :
    (0 ≤ j.progress ∧ j.progress ≤ 1) ∧
    (j.status = JStatus.completed → j.progress = 1) ∧
    (∀ j', JobStep j j' → j.progress ≤ j'.progress) ∧
    ((j.status = JStatus.completed ∨ j.status = JStatus.failed) →
      ∀ j', ¬ JobStep j j') := by
  obtain ⟨h0, h1, hres, herr, hcp⟩ :=
    jobInv_reach h (jobInv_init id kind input t)
  exact ⟨⟨h0, h1⟩, hcp, fun j' hs => jobStep_mono hs h1,
    fun ht => terminal_no_step ht⟩

theorem job_progress_invariant_witness :
    Relation.ReflTransGen JobStep (initJob "7" "scrape" "crawl the blog" 3)
      (initJob "7" "scrape" "crawl the blog" 3) ∧
    ((0 ≤ (initJob "7" "scrape" "crawl the blog" 3).progress ∧
      (initJob "7" "scrape" "crawl the blog" 3).progress ≤ 1) ∧
     ((initJob "7" "scrape" "crawl the blog" 3).status = JStatus.completed →
       (initJob "7" "scrape" "crawl the blog" 3).progress = 1) ∧
     (∀ j', JobStep (initJob "7" "scrape" "crawl the blog" 3) j' →
       (initJob "7" "scrape" "crawl the blog" 3).progress ≤ j'.progress) ∧
     (((initJob "7" "scrape" "crawl the blog" 3).status = JStatus.completed ∨
       (initJob "7" "scrape" "crawl the blog" 3).status = JStatus.failed) →
       ∀ j', ¬ JobStep (initJob "7" "scrape" "crawl the blog" 3) j')) :=
  ⟨Relation.ReflTransGen.refl,
   job_progress_invariant "7" "scrape" "crawl the blog" 3 _
     Relation.ReflTransGen.refl⟩

/-- C2: For every job, the result field is present exactly when status is
completed and the error field is present exactly when status is failed;
hence for terminal jobs exactly one of the two is set, and for pending or
running jobs neither is set. -/
theorem job_result_error_exclusive (id kind input : String) (t : Nat)
    (j : JobRecord)
    (h : Relation.ReflTransGen JobStep (initJob id kind input t) j) :
    (j.result.isSome = true ↔ j.status = JStatus.completed) ∧
    (j.error.isSome = true ↔ j.status = JStatus.failed) := by
  obtain ⟨h0, h1, hres, herr, hcp⟩ :=
    jobInv_reach h (jobInv_init id kind input t)
  exact ⟨hres, herr⟩

theorem job_result_error_exclusive_witness :
    Relation.ReflTransGen JobStep (initJob "9" "local-upload" "files" 5)
      (initJob "9" "local-upload" "files" 5) ∧
    (((initJob "9" "local-upload" "files" 5).result.isSome = true ↔
        (initJob "9" "local-upload" "files" 5).status = JStatus.completed) ∧
     ((initJob "9" "local-upload" "files" 5).error.isSome = true ↔
        (initJob "9" "local-upload" "files" 5).status = JStatus.failed)) :=
  ⟨Relation.ReflTransGen.refl,
   job_result_error_exclusive "9" "local-upload" "files" 5 _
     Relation.ReflTransGen.refl⟩

/-- C3 counterexample: the status-query record of the code (the `Job`
interface in `JobStatus.tsx`) does not have the claimed shape: its field
names differ from the claimed list, it has no `kind` field and no
`updatedAt` field, and the completed-scrape document count is not under
`documentsProcessed`. -/
theorem job_shape_counterexample :
    jobFieldNames ≠
      ["id", "kind", "status", "progress", "createdAt", "updatedAt",
       "result", "error"] ∧
    "kind" ∉ jobFieldNames ∧
    "updatedAt" ∉ jobFieldNames ∧
    "documentsProcessed" ∉ jobResultFieldNames := by
  refine ⟨?_, ?_, ?_, ?_⟩ <;> decide

/-- C3 amended: the status-query result delivered to a polling client has
exactly the shape id, type, status, prompt (optional), progress, created_at,
error (optional), result (optional); the four statuses the client
distinguishes are completed, failed, running and pending (anything else
falls to the default rendering); and for a completed scrape job the
processed-document count is carried under `result.documents_processed`. -/
theorem job_shape_amended :
    jobFieldNames =
      ["id", "type", "status", "prompt", "progress", "created_at",
       "error", "result"] ∧
    ("result", true, TsFieldType.object) ∈ jobFields ∧
    ("documents_processed", true, TsFieldType.number) ∈ jobResultFields ∧
    (∀ s, ((getStatusIcon s == "❓") = false) ↔
      s ∈ ["completed", "failed", "running", "pending"]) := by
  refine ⟨rfl, by decide, by decide, ?_⟩
  intro s
  unfold getStatusIcon
  split_ifs with h1 h2 h3 h4
  · subst h1; decide
  · subst h2; decide
  · subst h3; decide
  · subst h4; decide
  · constructor
    · intro hF; exact absurd hF (by decide)
    · intro hm
      simp only [List.mem_cons, List.not_mem_nil, or_false] at hm
      rcases hm with rfl | rfl | rfl | rfl
      · exact absurd rfl h1
      · exact absurd rfl h2
      · exact absurd rfl h3
      · exact absurd rfl h4

/-- C4 counterexample: in the `Job` interface the `error` field exposed to
clients is declared as a bare string, not as an object with `kind` and
`message` fields. -/
theorem job_error_shape_counterexample :
    jobFields.find? (fun f => f.1 == "error") =
      some ("error", true, TsFieldType.string) ∧
    TsFieldType.string ≠ TsFieldType.object := by
  exact ⟨by decide, by decide⟩

/-- C4 amended: for every failed job the error exposed to clients is a bare
human-readable string (the `error?: string` field), which the component
renders directly as `❌ Error: message` whenever the string is non-empty
(the `job.error` truthiness test skips an empty string); no structured
`kind` field exists. -/
theorem job_error_shape_amended (j : Job) (e : String)
    (hstatus : j.status = "failed") (herr : j.error = some e)
    (hne : e ≠ "") :
    jobFields.find? (fun f => f.1 == "error") =
      some ("error", true, TsFieldType.string) ∧
    renderJobError j = some ("❌ Error: " ++ e) := by
  refine ⟨by decide, ?_⟩
  simp [renderJobError, hstatus, herr, hne]

/-- A concrete failed job used to instantiate C4's amended theorem. -/
def sampleFailedJob : Job :=
  { id := "j9", type := "scrape", status := "failed",
    prompt := some "crawl example.com", progress := 1/4,
    created_at := "2024-01-01T00:00:00Z",
    error := some "Network timeout", result := none }

theorem job_error_shape_amended_witness :
    sampleFailedJob.status = "failed" ∧
    sampleFailedJob.error = some "Network timeout" ∧
    "Network timeout" ≠ "" ∧
    (jobFields.find? (fun f => f.1 == "error") =
       some ("error", true, TsFieldType.string) ∧
     renderJobError sampleFailedJob =
       some ("❌ Error: " ++ "Network timeout")) :=
  ⟨rfl, rfl, by decide,
   job_error_shape_amended sampleFailedJob "Network timeout" rfl rfl
     (by decide)⟩

/-- C5: Submitting with an empty prompt is rejected synchronously with a
ValidationError, the orchestrator state is unchanged — so no Job is created
and a subsequent List shows exactly what it showed before — and the
frontend form likewise sends nothing for an empty prompt. -/
theorem submit_empty_prompt_rejected (s : OrchestratorState) (kind : String)
    (t limit : Nat) (st : String) :
    (submit s kind "" t).1 = Except.error SubmitError.validationError ∧
    (submit s kind "" t).2 = s ∧
    listJobs (submit s kind "" t).2 limit = listJobs s limit ∧
    scrapeFormSubmit "" st = none := by
  refine ⟨?_, ?_, ?_, ?_⟩
  · simp [submit]
  · simp [submit]
  · simp [submit]
  · rfl

/-- C6 counterexample: the submission interface accepts and transmits the
source-type value `firecrawl` (and `apify`), which is not in the claimed
enumeration; `remote-crawl` and `advanced-crawl` are not offered at all. -/
theorem scrape_source_type_counterexample :
    "firecrawl" ∈ sourceTypeOptions ∧
    "apify" ∈ sourceTypeOptions ∧
    "remote-crawl" ∉ sourceTypeOptions ∧
    "advanced-crawl" ∉ sourceTypeOptions ∧
    scrapeFormSubmit "Crawl techcrunch articles" "firecrawl" =
      some { prompt := "Crawl techcrunch articles",
             source_type := "firecrawl" } := by
  refine ⟨?_, ?_, ?_, ?_, ?_⟩ <;> decide

/-- C6 amended: the source-type hint accepted by the scrape form is drawn
exactly from the enumeration auto, firecrawl, apify, local (firecrawl being
the web-crawl backend and apify the advanced-scraping backend), and whatever
option is selected is transmitted verbatim as `source_type` whenever the
prompt is non-blank. -/
theorem scrape_source_type_amended :
    sourceTypeOptions = ["auto", "firecrawl", "apify", "local"] ∧
    (∀ p st, (scrapeFormSubmit p st).map ScrapeRequest.source_type =
      if jsTrim p = "" then none else some st) := by
  refine ⟨rfl, ?_⟩
  intro p st
  unfold scrapeFormSubmit
  by_cases h : jsTrim p = ""
  · rw [if_pos h, if_pos h]; rfl
  · rw [if_neg h, if_neg h]; rfl

/-- C8: a Query (store Get) for an id that Submit never returned yields
not-found (`none`), never a default or zero-valued record. -/
theorem query_unknown_id_not_found (s : OrchestratorState)
    (ids : List String) (id : String) (htr : OrchTrace s ids)
    (hid : id ∉ ids) : getJob s id = none := by
  induction htr with
  | init => rfl
  | submit_ok h heq ih =>
      rename_i s0 ids0 kind0 input0 t0 id0 s1
      rw [List.mem_cons, not_or] at hid
      obtain ⟨hne, hid2⟩ := hid
      unfold submit at heq
      split at heq
      · rw [Prod.mk.injEq] at heq
        exact absurd heq.1 (by simp)
      · rw [Prod.mk.injEq] at heq
        obtain ⟨h1, h2⟩ := heq
        injection h1 with h1
        subst h2
        subst h1
        unfold getJob lookupJob
        rw [if_neg (by simp [initJob]; exact fun hh => hne hh.symm)]
        exact ih hid2
  | submit_err h heq ih =>
      rename_i s0 ids0 kind0 input0 t0 e0 s1
      unfold submit at heq
      split at heq
      · rw [Prod.mk.injEq] at heq
        rw [← heq.2]
        exact ih hid
      · rw [Prod.mk.injEq] at heq
        exact absurd heq.1 (by simp)
  | worker_update h hf ih =>
      rename_i s0 ids0 id1 f
      have hnone := ih hid
      apply lookupJob_eq_none
      intro j hj
      rw [updateJobStore, List.mem_map] at hj
      obtain ⟨j0, hj0, rfl⟩ := hj
      have hsame : (if j0.id = id1 then f j0 else j0).id = j0.id := by
        split
        · exact hf j0
        · rfl
      rw [hsame]
      exact lookupJob_none_forall hnone j0 hj0

theorem query_unknown_id_not_found_witness :
    OrchTrace { store := [], nextId := 0 } [] ∧
    "ghost" ∉ ([] : List String) ∧
    getJob { store := [], nextId := 0 } "ghost" = none :=
  ⟨OrchTrace.init, by simp,
   query_unknown_id_not_found _ [] "ghost" OrchTrace.init (by simp)⟩

/-- C9: the JobStatus component renders at most the first 5 jobs of the
list it is given, and exactly when the list holds more than 5 jobs it
renders a `View all` control carrying the total job count in place of the
remaining jobs. -/
theorem jobstatus_renders_at_most_five (jobs : List Job) :
    viewCardsOf (renderJobStatus jobs) = jobs.take 5 ∧
    (viewCardsOf (renderJobStatus jobs)).length ≤ 5 ∧
    viewAllOf (renderJobStatus jobs) =
      (if 5 < jobs.length then some jobs.length else none) := by
  unfold renderJobStatus
  by_cases h : jobs.length = 0
  · rw [if_pos h]
    have hnil : jobs = [] := List.length_eq_zero.mp h
    subst hnil
    simp [viewCardsOf, viewAllOf]
  · rw [if_neg h]
    refine ⟨rfl, ?_, rfl⟩
    show (jobs.take 5).length ≤ 5
    rw [List.length_take]
    exact min_le_left 5 jobs.length

/-- C10: the chat request body carries `context_collection = null` whenever
the chat type is config; only in data mode is the selected collection
transmitted, including the empty string that stands for all collections. -/
theorem chat_config_context_null (sel msg : String) :
    (buildChatRequest ChatType.config sel msg).context_collection = none ∧
    (buildChatRequest ChatType.data sel msg).context_collection = some sel ∧
    (buildChatRequest ChatType.data "" msg).context_collection = some "" :=
  ⟨rfl, rfl, rfl⟩

/- ===================== JobStatus polling client ===================== -/

/-- `jobData.status === 'completed' || jobData.status === 'failed'`
(`JobStatus.tsx` line 47): the statuses on which polling stops. -/
def isTerminalStatus (s : String) : Bool :=
  s == "completed" || s == "failed"

/-- `job.status === 'running' || job.status === 'pending'`
(`JobStatus.tsx` line 71): the statuses kept in the polling set. -/
def isTrackedStatus (s : String) : Bool :=
  s == "running" || s == "pending"

/-- The component state of `JobStatus`: the `jobs` list and the
`pollingJobs` set (modelled as a list of ids). -/
structure ClientState where
  jobs : List Job
  polling : List String
deriving DecidableEq

/-- `updatedJobs[jobIndex] = jobData` after
`findIndex(j => j.id === jobId)` (`JobStatus.tsx` lines 41-43): replace the
first job whose id matches; leave the list unchanged when none does. -/
def updateJobList : List Job → String → Job → List Job
  | [], _, _ => []
  | j :: rest, jobId, jd =>
    if j.id = jobId then jd :: rest else j :: updateJobList rest jobId jd

/-- Whether some job in the list carries the given id
(`findIndex !== -1`). -/
def anyId (jobs : List Job) (id : String) : Bool :=
  jobs.any (fun j => j.id = id)

/-- The accumulator of one pass of the polling interval callback: the
updated jobs array, the polling set after removals, and the `hasUpdates`
flag. -/
structure TickAcc where
  jobs : List Job
  polling : List String
  updated : Bool
deriving DecidableEq

/-- One iteration of the `for (const jobId of pollingJobs)` loop
(`JobStatus.tsx` lines 36-59): on a successful response for `jobId` whose
id is present, store the returned record, set `hasUpdates`, and delete
`jobId` from the polling set when the returned status is terminal; on a
failed fetch or an unknown id, change nothing. -/
def pollApply (acc : TickAcc) (jobId : String) (jd : Job) : TickAcc :=
  if anyId acc.jobs jobId then
    { jobs := updateJobList acc.jobs jobId jd,
      polling := if isTerminalStatus jd.status then acc.polling.erase jobId
                 else acc.polling,
      updated := true }
  else acc

/-- One loop iteration, dispatching on the fetch outcome. -/
def pollStep (resp : String → Option Job) (acc : TickAcc) (jobId : String) :
    TickAcc :=
  match resp jobId with
  | none => acc
  | some jd => pollApply acc jobId jd

/-- The effect on `[jobs]` (`JobStatus.tsx` lines 70-74): the polling set is
recomputed as the ids of the running and pending jobs. -/
def syncPolling (jobs : List Job) : List String :=
  (jobs.filter (fun j => isTrackedStatus j.status)).map Job.id

/-- End of one interval callback: when `hasUpdates` was set, `setJobs` fires
and the `[jobs]` effect recomputes the polling set; otherwise both pieces of
state keep their values. -/
def tickFinish (acc : TickAcc) : ClientState :=
  if acc.updated then { jobs := acc.jobs, polling := syncPolling acc.jobs }
  else { jobs := acc.jobs, polling := acc.polling }

/-- One 2-second polling tick of the `JobStatus` component against a server
response function. -/
def clientTick (resp : String → Option Job) (s : ClientState) : ClientState :=
  tickFinish (s.polling.foldl (pollStep resp)
    { jobs := s.jobs, polling := s.polling, updated := false })

/-- The states the client passes through, starting from `s`, under the
given sequence of per-tick server response functions. -/
def statesAfter : List (String → Option Job) → ClientState → List ClientState
  | [], s => [s]
  | r :: rest, s => s :: statesAfter rest (clientTick r s)

/-- Lookup of a job by id in the component's jobs list. -/
def findJob : List Job → String → Option Job
  | [], _ => none
  | j :: rest, id => if j.id = id then some j else findJob rest id

/-- A server is well-formed when a status query for an id returns a record
carrying that id. -/
def respWellFormed (resp : String → Option Job) : Prop :=
  ∀ k j, resp k = some j → j.id = k

/-- The stable configuration of a job the client has stopped polling: its
stored record is the terminal one it last received, its id is out of the
polling set, and the stored ids are distinct. -/
def noLongerPolled (id : String) (jd : Job) (s : ClientState) : Prop :=
  findJob s.jobs id = some jd ∧ id ∉ s.polling ∧ (s.jobs.map Job.id).Nodup

theorem updateJobList_map_id (jobs : List Job) (jobId : String) (jd : Job)
    (h : jd.id = jobId) :
    (updateJobList jobs jobId jd).map Job.id = jobs.map Job.id := by
  induction jobs with
  | nil => rfl
  | cons j rest ih =>
      unfold updateJobList
      by_cases hj : j.id = jobId
      · rw [if_pos hj]
        simp only [List.map_cons]
        rw [h, hj]
      · rw [if_neg hj]
        simp only [List.map_cons, ih]

theorem updateJobList_findJob_ne (jobs : List Job) (jobId id : String)
    (jd : Job) (h : jd.id = jobId) (hne : jobId ≠ id) :
    findJob (updateJobList jobs jobId jd) id = findJob jobs id := by
  induction jobs with
  | nil => rfl
  | cons j rest ih =>
      unfold updateJobList
      by_cases hj : j.id = jobId
      · rw [if_pos hj]
        unfold findJob
        rw [if_neg (by rw [h]; exact hne), if_neg (by rw [hj]; exact hne)]
      · rw [if_neg hj]
        unfold findJob
        by_cases hi : j.id = id
        · rw [if_pos hi, if_pos hi]
        · rw [if_neg hi, if_neg hi]
          exact ih

theorem updateJobList_findJob_self (jobs : List Job) (jobId : String)
    (jd : Job) (h : jd.id = jobId) (hmem : anyId jobs jobId = true) :
    findJob (updateJobList jobs jobId jd) jobId = some jd := by
  induction jobs with
  | nil => exact absurd hmem (by simp [anyId])
  | cons j rest ih =>
      unfold updateJobList
      by_cases hj : j.id = jobId
      · rw [if_pos hj]
        unfold findJob
        rw [if_pos h]
      · rw [if_neg hj]
        unfold findJob
        rw [if_neg hj]
        refine ih ?_
        unfold anyId at hmem ⊢
        simp only [List.any_cons, Bool.or_eq_true] at hmem
        rcases hmem with hh | hh
        · exact absurd (by simpa using hh) hj
        · exact hh

theorem anyId_iff_mem_map (jobs : List Job) (id : String) :
    anyId jobs id = true ↔ id ∈ jobs.map Job.id := by
  unfold anyId
  simp [List.any_eq_true, List.mem_map]

theorem findJob_mem {jobs : List Job} {id : String} {jd : Job}
    (h : findJob jobs id = some jd) : jd ∈ jobs := by
  induction jobs with
  | nil => exact absurd h (by simp [findJob])
  | cons j rest ih =>
      unfold findJob at h
      by_cases hj : j.id = id
      · rw [if_pos hj] at h
        injection h with h
        exact h ▸ List.mem_cons_self j rest
      · rw [if_neg hj] at h
        exact List.mem_cons_of_mem j (ih h)

theorem findJob_id {jobs : List Job} {id : String} {jd : Job}
    (h : findJob jobs id = some jd) : jd.id = id := by
  induction jobs with
  | nil => exact absurd h (by simp [findJob])
  | cons j rest ih =>
      unfold findJob at h
      by_cases hj : j.id = id
      · rw [if_pos hj] at h
        injection h with h
        rw [← h]
        exact hj
      · rw [if_neg hj] at h
        exact ih h

theorem terminal_not_tracked {st : String}
    (h : isTerminalStatus st = true) : isTrackedStatus st = false := by
  unfold isTerminalStatus at h
  simp only [Bool.or_eq_true, beq_iff_eq] at h
  rcases h with h | h <;> (subst h; decide)

theorem not_mem_syncPolling (jobs : List Job) (id : String) (jd : Job)
    (hfind : findJob jobs id = some jd)
    (hterm : isTerminalStatus jd.status = true)
    (hnd : (jobs.map Job.id).Nodup) : id ∉ syncPolling jobs := by
  intro hmem
  unfold syncPolling at hmem
  rw [List.mem_map] at hmem
  obtain ⟨j, hjmem, hjid⟩ := hmem
  rw [List.mem_filter] at hjmem
  obtain ⟨hjin, hjtr⟩ := hjmem
  have hjd_mem : jd ∈ jobs := findJob_mem hfind
  have hjd_id : jd.id = id := findJob_id hfind
  have hjj : j = jd :=
    List.inj_on_of_nodup_map hnd hjin hjd_mem (by rw [hjid, hjd_id])
  rw [hjj] at hjtr
  rw [terminal_not_tracked hterm] at hjtr
  exact absurd hjtr (by simp)

theorem foldl_preserve {α β : Type} (f : β → α → β) (P : β → Prop) :
    ∀ (l : List α) (b : β), (∀ b k, k ∈ l → P b → P (f b k)) → P b →
      P (l.foldl f b)
  | [], _, _, hb => hb
  | k :: l, b, hstep, hb => by
      simp only [List.foldl_cons]
      exact foldl_preserve f P l (f b k)
        (fun b k hk h => hstep b k (List.mem_cons_of_mem _ hk) h)
        (hstep b k (List.mem_cons_self _ _) hb)

theorem pollStep_none (resp : String → Option Job) (acc : TickAcc)
    (k : String) (h : resp k = none) : pollStep resp acc k = acc := by
  unfold pollStep
  rw [h]

theorem pollStep_some (resp : String → Option Job) (acc : TickAcc)
    (k : String) (jd : Job) (h : resp k = some jd) :
    pollStep resp acc k = pollApply acc k jd := by
  unfold pollStep
  rw [h]

theorem pollStep_ids (resp : String → Option Job)
    (hwf : respWellFormed resp) (acc : TickAcc) (k : String) :
    (pollStep resp acc k).jobs.map Job.id = acc.jobs.map Job.id := by
  cases hr : resp k with
  | none => rw [pollStep_none resp acc k hr]
  | some jd =>
      rw [pollStep_some resp acc k jd hr]
      unfold pollApply
      by_cases ha : anyId acc.jobs k = true
      · rw [if_pos ha]
        exact updateJobList_map_id _ _ _ (hwf k jd hr)
      · rw [if_neg ha]

theorem pollStep_updated (resp : String → Option Job) (acc : TickAcc)
    (k : String) (h : acc.updated = true) :
    (pollStep resp acc k).updated = true := by
  cases hr : resp k with
  | none => rw [pollStep_none resp acc k hr]; exact h
  | some jd =>
      rw [pollStep_some resp acc k jd hr]
      unfold pollApply
      by_cases ha : anyId acc.jobs k = true
      · rw [if_pos ha]
      · rw [if_neg ha]; exact h

theorem pollStep_keeps_found (resp : String → Option Job)
    (hwf : respWellFormed resp) (id : String) (jd : Job)
    (hresp : resp id = some jd) (acc : TickAcc) (k : String)
    (h : findJob acc.jobs id = some jd) :
    findJob (pollStep resp acc k).jobs id = some jd := by
  cases hr : resp k with
  | none => rw [pollStep_none resp acc k hr]; exact h
  | some jd2 =>
      rw [pollStep_some resp acc k jd2 hr]
      unfold pollApply
      by_cases ha : anyId acc.jobs k = true
      · rw [if_pos ha]
        by_cases hk : k = id
        · subst hk
          rw [hr] at hresp
          injection hresp with hresp
          subst hresp
          exact updateJobList_findJob_self _ _ _ (hwf k jd2 hr) ha
        · show findJob (updateJobList acc.jobs k jd2) id = some jd
          rw [updateJobList_findJob_ne _ _ _ _ (hwf k jd2 hr) hk]
          exact h
      · rw [if_neg ha]; exact h

theorem pollStep_keeps_found_ne (resp : String → Option Job)
    (hwf : respWellFormed resp) (id : String) (jd : Job) (acc : TickAcc)
    (k : String) (hk : k ≠ id) (h : findJob acc.jobs id = some jd) :
    findJob (pollStep resp acc k).jobs id = some jd := by
  cases hr : resp k with
  | none => rw [pollStep_none resp acc k hr]; exact h
  | some jd2 =>
      rw [pollStep_some resp acc k jd2 hr]
      unfold pollApply
      by_cases ha : anyId acc.jobs k = true
      · rw [if_pos ha]
        show findJob (updateJobList acc.jobs k jd2) id = some jd
        rw [updateJobList_findJob_ne _ _ _ _ (hwf k jd2 hr) hk]
        exact h
      · rw [if_neg ha]; exact h

theorem pollStep_polling_not_mem (resp : String → Option Job)
    (acc : TickAcc) (k : String) (id : String) (h : id ∉ acc.polling) :
    id ∉ (pollStep resp acc k).polling := by
  cases hr : resp k with
  | none => rw [pollStep_none resp acc k hr]; exact h
  | some jd =>
      rw [pollStep_some resp acc k jd hr]
      unfold pollApply
      by_cases ha : anyId acc.jobs k = true
      · rw [if_pos ha]
        show id ∉ (if isTerminalStatus jd.status then acc.polling.erase k
                   else acc.polling)
        by_cases ht : isTerminalStatus jd.status = true
        · rw [if_pos ht]
          intro hmem
          exact h (List.mem_of_mem_erase hmem)
        · rw [if_neg ht]; exact h
      · rw [if_neg ha]; exact h

theorem fold_terminal_removes (resp : String → Option Job)
    (hwf : respWellFormed resp) (id : String) (jd : Job)
    (hresp : resp id = some jd) (baseIds : List String)
    (l1 l2 : List String) (acc0 : TickAcc)
    (hids0 : acc0.jobs.map Job.id = baseIds) (hmem : id ∈ baseIds) :
    findJob ((l1 ++ id :: l2).foldl (pollStep resp) acc0).jobs id
      = some jd ∧
    ((l1 ++ id :: l2).foldl (pollStep resp) acc0).jobs.map Job.id
      = baseIds ∧
    ((l1 ++ id :: l2).foldl (pollStep resp) acc0).updated = true := by
  rw [List.foldl_append, List.foldl_cons]
  have hids1 : (l1.foldl (pollStep resp) acc0).jobs.map Job.id = baseIds :=
    foldl_preserve (pollStep resp) (fun a => a.jobs.map Job.id = baseIds)
      l1 acc0
      (fun b k hk hb => by
        show (pollStep resp b k).jobs.map Job.id = baseIds
        rw [pollStep_ids resp hwf b k]
        exact hb)
      hids0
  have ha : anyId (l1.foldl (pollStep resp) acc0).jobs id = true := by
    rw [anyId_iff_mem_map, hids1]
    exact hmem
  have hstep :
      findJob (pollStep resp (l1.foldl (pollStep resp) acc0) id).jobs id
        = some jd ∧
      (pollStep resp (l1.foldl (pollStep resp) acc0) id).jobs.map Job.id
        = baseIds ∧
      (pollStep resp (l1.foldl (pollStep resp) acc0) id).updated = true := by
    rw [pollStep_some resp _ id jd hresp]
    unfold pollApply
    rw [if_pos ha]
    refine ⟨?_, ?_, rfl⟩
    · exact updateJobList_findJob_self _ _ _ (hwf id jd hresp) ha
    · show (updateJobList (l1.foldl (pollStep resp) acc0).jobs id jd).map
          Job.id = baseIds
      rw [updateJobList_map_id _ _ _ (hwf id jd hresp)]
      exact hids1
  exact foldl_preserve (pollStep resp)
    (fun a => findJob a.jobs id = some jd ∧
      a.jobs.map Job.id = baseIds ∧ a.updated = true)
    l2 _
    (fun b k hk hb =>
      ⟨pollStep_keeps_found resp hwf id jd hresp b k hb.1,
       by show (pollStep resp b k).jobs.map Job.id = baseIds
          rw [pollStep_ids resp hwf b k]
          exact hb.2.1,
       pollStep_updated resp b k hb.2.2⟩) hstep

theorem clientTick_removes (resp : String → Option Job) (s : ClientState)
    (id : String) (jd : Job) (hwf : respWellFormed resp)
    (hnd : (s.jobs.map Job.id).Nodup) (hmem : id ∈ s.jobs.map Job.id)
    (hpoll : id ∈ s.polling) (hresp : resp id = some jd)
    (hterm : isTerminalStatus jd.status = true) :
    noLongerPolled id jd (clientTick resp s) := by
  obtain ⟨l1, l2, hsplit⟩ := List.append_of_mem hpoll
  unfold clientTick tickFinish
  rw [hsplit]
  obtain ⟨hf, hi, hu⟩ := fold_terminal_removes resp hwf id jd hresp
    (s.jobs.map Job.id) l1 l2
    { jobs := s.jobs, polling := l1 ++ id :: l2, updated := false } rfl hmem
  rw [if_pos hu]
  exact ⟨hf, not_mem_syncPolling _ _ _ hf hterm (by rw [hi]; exact hnd),
    by rw [hi]; exact hnd⟩

theorem clientTick_preserves_noLonger (resp : String → Option Job)
    (id : String) (jd : Job) (hwf : respWellFormed resp)
    (hterm : isTerminalStatus jd.status = true) (s : ClientState)
    (h : noLongerPolled id jd s) :
    noLongerPolled id jd (clientTick resp s) := by
  obtain ⟨hf, hp, hnd⟩ := h
  unfold clientTick tickFinish
  obtain ⟨hf2, hi2, hp2⟩ := foldl_preserve (pollStep resp)
    (fun a => findJob a.jobs id = some jd ∧
      a.jobs.map Job.id = s.jobs.map Job.id ∧ id ∉ a.polling)
    s.polling { jobs := s.jobs, polling := s.polling, updated := false }
    (fun b k hk hb => by
      have hkne : k ≠ id := fun hkid => hp (hkid ▸ hk)
      exact ⟨pollStep_keeps_found_ne resp hwf id jd b k hkne hb.1,
        by show (pollStep resp b k).jobs.map Job.id = s.jobs.map Job.id
           rw [pollStep_ids resp hwf b k]
           exact hb.2.1,
        pollStep_polling_not_mem resp b k id hb.2.2⟩)
    ⟨hf, rfl, hp⟩
  split
  · exact ⟨hf2,
      not_mem_syncPolling _ _ _ hf2 hterm (by rw [hi2]; exact hnd),
      by rw [hi2]; exact hnd⟩
  · exact ⟨hf2, hp2, by rw [hi2]; exact hnd⟩

theorem statesAfter_noLonger (id : String) (jd : Job)
    (hterm : isTerminalStatus jd.status = true) :
    ∀ (resps : List (String → Option Job)) (s : ClientState),
      (∀ r ∈ resps, respWellFormed r) → noLongerPolled id jd s →
      ∀ s' ∈ statesAfter resps s, noLongerPolled id jd s'
  | [], s, _, hs, s', hmem => by
      simp only [statesAfter, List.mem_singleton] at hmem
      subst hmem
      exact hs
  | r :: rest, s, hwfs, hs, s', hmem => by
      simp only [statesAfter, List.mem_cons] at hmem
      rcases hmem with rfl | hmem
      · exact hs
      · exact statesAfter_noLonger id jd hterm rest (clientTick r s)
          (fun x hx => hwfs x (List.mem_cons_of_mem r hx))
          (clientTick_preserves_noLonger r id jd
            (hwfs r (List.mem_cons_self r rest)) hterm s hs) s' hmem

/-- C7: the JobStatus client re-fetches every id in its polling set each
tick; once a status query for a tracked job returns a terminal status
(completed or failed), that job is out of the polling set after the tick
and out of it in every later state — so it is never polled again — while
its stored record keeps the terminal snapshot last received.  (Soundness of
stopping rests on terminal states being sinks, `terminal_no_step`.) -/
theorem polling_stops_on_terminal (resp : String → Option Job)
    (resps : List (String → Option Job)) (s : ClientState) (id : String)
    (jd : Job) (hwf : respWellFormed resp)
    (hwfs : ∀ r ∈ resps, respWellFormed r)
    (hnd : (s.jobs.map Job.id).Nodup) (hmem : id ∈ s.jobs.map Job.id)
    (hpoll : id ∈ s.polling) (hresp : resp id = some jd)
    (hterm : isTerminalStatus jd.status = true) :
    ∀ s' ∈ statesAfter resps (clientTick resp s),
      id ∉ s'.polling ∧ findJob s'.jobs id = some jd := by
  have h0 : noLongerPolled id jd (clientTick resp s) :=
    clientTick_removes resp s id jd hwf hnd hmem hpoll hresp hterm
  intro s' hs'
  obtain ⟨hf, hp, hx⟩ := statesAfter_noLonger id jd hterm resps
    (clientTick resp s) hwfs h0 s' hs'
  exact ⟨hp, hf⟩

/-- A running job as stored by the client before its final poll. -/
def sampleRunningJob : Job :=
  { id := "job-1", type := "scrape", status := "running",
    prompt := some "crawl example.com", progress := 1/2,
    created_at := "2024-01-01T00:00:00Z", error := none, result := none }

/-- The terminal record the server returns for `job-1`. -/
def sampleDoneJob : Job :=
  { id := "job-1", type := "scrape", status := "completed",
    prompt := some "crawl example.com", progress := 1,
    created_at := "2024-01-01T00:00:00Z", error := none,
    result := some { collection_name := some "articles",
                     documents_processed := some 10, success := some true } }

/-- A concrete server response function: the terminal record for `job-1`,
nothing for anyone else. -/
def sampleResp : String → Option Job :=
  fun k => if k = "job-1" then some sampleDoneJob else none

/-- The client state tracking `job-1`. -/
def sampleClient : ClientState :=
  { jobs := [sampleRunningJob], polling := ["job-1"] }

theorem sampleResp_wf : respWellFormed sampleResp := by
  intro k j h
  unfold sampleResp at h
  split at h
  next hk =>
    injection h with h
    rw [← h, hk]
    rfl
  next hk => exact Option.noConfusion h

theorem polling_stops_on_terminal_witness :
    respWellFormed sampleResp ∧
    (∀ r ∈ ([] : List (String → Option Job)), respWellFormed r) ∧
    (sampleClient.jobs.map Job.id).Nodup ∧
    "job-1" ∈ sampleClient.jobs.map Job.id ∧
    "job-1" ∈ sampleClient.polling ∧
    sampleResp "job-1" = some sampleDoneJob ∧
    isTerminalStatus sampleDoneJob.status = true ∧
    (∀ s' ∈ statesAfter [] (clientTick sampleResp sampleClient),
      "job-1" ∉ s'.polling ∧ findJob s'.jobs "job-1" = some sampleDoneJob) :=
  ⟨sampleResp_wf, fun r hr => absurd hr (List.not_mem_nil r), by decide,
   by decide, by decide, by decide, by decide,
   polling_stops_on_terminal sampleResp [] sampleClient "job-1"
     sampleDoneJob sampleResp_wf
     (fun r hr => absurd hr (List.not_mem_nil r)) (by decide) (by decide)
     (by decide) (by decide) (by decide)⟩
